import Mathlib

/-!
Verification of the curve25519 core (`crypto/curve25519/curve25519.c`):
Ed25519 signing/verification and X25519 with its multi-backend dispatch.

Bytes are modelled as natural numbers (`uint8_t` values, `< 256` where it
matters) and byte buffers as `List Nat`.  The field/group arithmetic engine,
the SHA-512 hash and the backend scalar-multiplication routines are external
collaborators of this file's code; they are taken as parameters, with the
algebraic facts the specification attributes to them stated as explicit
hypotheses and marked `Modelled from the spec:` where used.
-/

namespace AwsLcCurve25519

/-- Value of a byte buffer read as a little-endian integer. -/
def leNum : List Nat → Nat
  | [] => 0
  | b :: bs => b + 256 * leNum bs

/-- Little-endian encoding of `n` into exactly `k` bytes. -/
def leBytes : Nat → Nat → List Nat
  | _, 0 => []
  | n, k + 1 => n % 256 :: leBytes (n / 256) k

/-- Order of the prime-order subgroup of Curve25519 (the constant `l` of
RFC 8032). -/
def L : Nat := 2 ^ 252 + 27742317777372353535851937790883648493

/-- The constant array `kOrder` of `ED25519_verify`: the group order as four
little-endian 64-bit limbs. -/
def kOrder : Nat → Nat
  | 0 => 0x5812631a5cf5d3ed
  | 1 => 0x14def9dea2f79cd6
  | 2 => 0
  | 3 => 0x1000000000000000
  | _ => 0

/-- `CRYPTO_load_u64_le(buf + off)`: read 8 bytes at offset `off` as a
little-endian 64-bit word. -/
def load_u64_le (s : List Nat) (off : Nat) : Nat := leNum ((s.drop off).take 8)

/-- The limb-comparison loop of `ED25519_verify` (`for (size_t i = 3;; i--)`),
with `i` the current limb index counting down.  Returns `true` when the loop
`break`s (scalar accepted) and `false` when it returns 0 (scalar rejected). -/
def sOrderLoop (s : List Nat) : Nat → Bool
  | 0 =>
    let word := load_u64_le s 0
    if word > kOrder 0 then false
    else if word < kOrder 0 then true
    else false
  | i + 1 =>
    let word := load_u64_le s ((i + 1) * 8)
    if word > kOrder (i + 1) then false
    else if word < kOrder (i + 1) then true
    else sOrderLoop s i

/-- The full S-range check of `ED25519_verify`: accepts exactly when the loop
starting at limb 3 breaks before hitting a rejection. -/
def sCheck (s : List Nat) : Bool := sOrderLoop s 3

/- ### Arithmetic facts about the byte encodings -/

theorem leNum_append (a b : List Nat) :
    leNum (a ++ b) = leNum a + 256 ^ a.length * leNum b := by
  induction a with
  | nil => simp [leNum]
  | cons x xs ih =>
    simp [leNum, ih, List.length_cons, pow_succ]
    ring

theorem leNum_lt (s : List Nat) (h : ∀ b ∈ s, b < 256) :
    leNum s < 256 ^ s.length := by
  induction s with
  | nil => simp [leNum]
  | cons x xs ih =>
    have hx : x < 256 := h x (by simp)
    have hxs : leNum xs < 256 ^ xs.length := ih (fun b hb => h b (by simp [hb]))
    have h1 : x + 256 * leNum xs < 256 * (leNum xs + 1) := by omega
    have h2 : 256 * (leNum xs + 1) ≤ 256 * 256 ^ xs.length := by
      exact Nat.mul_le_mul_left _ (by omega)
    calc leNum (x :: xs) = x + 256 * leNum xs := rfl
      _ < 256 * (leNum xs + 1) := h1
      _ ≤ 256 * 256 ^ xs.length := h2
      _ = 256 ^ (x :: xs).length := by
          simp [List.length_cons, pow_succ]
          ring

theorem leBytes_length (n k : Nat) : (leBytes n k).length = k := by
  induction k generalizing n with
  | zero => rfl
  | succ k ih => simp [leBytes, ih]

theorem leBytes_bytes_lt (n k : Nat) : ∀ b ∈ leBytes n k, b < 256 := by
  induction k generalizing n with
  | zero => simp [leBytes]
  | succ k ih =>
    intro b hb
    simp only [leBytes, List.mem_cons] at hb
    rcases hb with h | h
    · omega
    · exact ih _ b h

theorem leNum_leBytes (n k : Nat) (h : n < 256 ^ k) :
    leNum (leBytes n k) = n := by
  induction k generalizing n with
  | zero =>
    simp [pow_zero] at h
    simp [leBytes, leNum, h]
  | succ k ih =>
    have hk : n / 256 < 256 ^ k := by
      rw [Nat.div_lt_iff_lt_mul (by norm_num)]
      calc n < 256 ^ (k + 1) := h
        _ = 256 ^ k * 256 := by rw [pow_succ]
    simp [leBytes, leNum, ih _ hk]
    omega

theorem leBytes_getD (n k i : Nat) (h : i < k) :
    (leBytes n k).getD i 0 = n / 256 ^ i % 256 := by
  induction k generalizing n i with
  | zero => omega
  | succ k ih =>
    cases i with
    | zero => simp [leBytes, List.getD]
    | succ i =>
      have : (leBytes n (k + 1)).getD (i + 1) 0
          = (leBytes (n / 256) k).getD i 0 := by
        simp [leBytes, List.getD]
      rw [this, ih _ _ (by omega), Nat.div_div_eq_div_mul]
      congr 1
      rw [pow_succ]
      ring_nf

theorem leNum_split (s : List Nat) (k : Nat) (h : k ≤ s.length) :
    leNum s = leNum (s.take k) + 256 ^ k * leNum (s.drop k) := by
  conv_lhs => rw [← List.take_append_drop k s]
  rw [leNum_append, List.length_take, min_eq_left h]

theorem take_of_length_eq {l : List Nat} {n : Nat} (h : l.length = n) :
    l.take n = l := by
  rw [← h, List.take_length]

/-- Little-endian value of a 32-byte buffer, decomposed into the four 64-bit
limbs that the verify loop reads. -/
theorem leNum_words (s : List Nat) (h : s.length = 32) :
    leNum s = load_u64_le s 0
      + 18446744073709551616 * load_u64_le s 8
      + 340282366920938463463374607431768211456 * load_u64_le s 16
      + 6277101735386680763835789423207666416102355444464034512896 *
          load_u64_le s 24 := by
  have h8 := leNum_split s 8 (by omega)
  have h16 := leNum_split (s.drop 8) 8 (by simp [h])
  have h24 := leNum_split (s.drop 16) 8 (by simp [h])
  rw [List.drop_drop] at h16 h24
  norm_num at h8 h16 h24
  have e0 : load_u64_le s 0 = leNum (s.take 8) := by
    simp [load_u64_le]
  have e1 : load_u64_le s 8 = leNum ((s.drop 8).take 8) := rfl
  have e2 : load_u64_le s 16 = leNum ((s.drop 16).take 8) := rfl
  have e3 : load_u64_le s 24 = leNum (s.drop 24) := by
    have hlen : (s.drop 24).length = 8 := by simp [h]
    simp [load_u64_le, take_of_length_eq hlen]
  rw [e0, e1, e2, e3]
  rw [h8, h16, h24]
  ring

theorem load_u64_le_lt (s : List Nat) (off : Nat) (h : ∀ b ∈ s, b < 256) :
    load_u64_le s off < 18446744073709551616 := by
  have hb : ∀ b ∈ (s.drop off).take 8, b < 256 := by
    intro b hb
    exact h b (List.drop_subset _ _ (List.take_subset _ _ hb))
  have h1 := leNum_lt _ hb
  have h2 : ((s.drop off).take 8).length ≤ 8 := by
    simp [List.length_take]
  calc load_u64_le s off < 256 ^ ((s.drop off).take 8).length := h1
    _ ≤ 256 ^ 8 := Nat.pow_le_pow_right (by norm_num) h2
    _ = 18446744073709551616 := by norm_num

theorem L_words : L = kOrder 0
    + 18446744073709551616 * kOrder 1
    + 340282366920938463463374607431768211456 * kOrder 2
    + 6277101735386680763835789423207666416102355444464034512896 *
        kOrder 3 := by decide

theorem L_lt_two_pow_253 : L < 2 ^ 253 := by decide

theorem L_lt_two_pow_256 : L < 256 ^ 32 := by decide

/-- The limb-comparison loop of `ED25519_verify` accepts a 32-byte buffer
exactly when its little-endian value is strictly below the group order. -/
theorem sCheck_iff (s : List Nat) (h32 : s.length = 32)
    (hb : ∀ b ∈ s, b < 256) :
    sCheck s = true ↔ leNum s < L := by
  have hw := leNum_words s h32
  have b0 := load_u64_le_lt s 0 hb
  have b1 := load_u64_le_lt s 8 hb
  have b2 := load_u64_le_lt s 16 hb
  have b3 := load_u64_le_lt s 24 hb
  have hL := L_words
  have k0 : kOrder 0 = 0x5812631a5cf5d3ed := rfl
  have k1 : kOrder 1 = 0x14def9dea2f79cd6 := rfl
  have k2 : kOrder 2 = 0 := rfl
  have k3 : kOrder 3 = 0x1000000000000000 := rfl
  rw [k0, k1, k2, k3] at hL
  simp only [sCheck, sOrderLoop, k0, k1, k2, k3]
  norm_num
  omega

/- ### The external group-arithmetic engine -/

/-- Interface of the external twisted-Edwards arithmetic engine consumed by
the Ed25519 code: a point type, the base point, and the compressed point
encoding/decoding routines (`ge_p3_tobytes`/`x25519_ge_tobytes` and
`x25519_ge_frombytes_vartime`, with decode failure as `none`). -/
structure GeEngine (Pt : Type) where
  B : Pt
  encode : Pt → List Nat
  decode : List Nat → Option Pt

/-- Modelled from the spec: `x25519_ge_scalarmult_base` computes scalar times
base point, the scalar being the first 32 bytes read little-endian. -/
def ge_scalarmult_base {Pt : Type} [AddCommGroup Pt] (E : GeEngine Pt)
    (s : List Nat) : Pt :=
  leNum (s.take 32) • E.B

/-- Modelled from the spec: `ge_double_scalarmult_vartime` computes
`h*A + s*B` for 32-byte scalars `h` and `s`. -/
def ge_double_scalarmult_vartime {Pt : Type} [AddCommGroup Pt]
    (E : GeEngine Pt) (h : List Nat) (A : Pt) (s : List Nat) : Pt :=
  leNum (h.take 32) • A + leNum (s.take 32) • E.B

/-- Modelled from the spec: `x25519_sc_reduce` reduces a digest modulo the
group order, leaving the 32-byte reduced scalar in the front of the buffer. -/
def x25519_sc_reduce (s : List Nat) : List Nat := leBytes (leNum s % L) 32

/-- Modelled from the spec: `sc_muladd a b c` computes `(a*b + c) mod L` over
32-byte little-endian scalars. -/
def sc_muladd (a b c : List Nat) : List Nat :=
  leBytes ((leNum (a.take 32) * leNum (b.take 32) + leNum (c.take 32)) % L) 32

/-- The masking applied by `ED25519_keypair_from_seed`, `x25519_s2n_bignum`
and `x25519_s2n_bignum_public_from_private`:
`b[0] &= 248; b[31] &= 127; b[31] |= 64`.  The two consecutive writes to byte
31 are combined into one `List.set` of the composed value. -/
def clampScalar (k : List Nat) : List Nat :=
  (k.set 0 (k.getD 0 0 &&& 248)).set 31 ((k.getD 31 0 &&& 127) ||| 64)

/-- The masking applied by `ED25519_sign`:
`az[0] &= 248; az[31] &= 63; az[31] |= 64` (again with the two writes to
byte 31 combined). -/
def clampScalarSign (k : List Nat) : List Nat :=
  (k.set 0 (k.getD 0 0 &&& 248)).set 31 ((k.getD 31 0 &&& 63) ||| 64)

/- ### Ed25519 engine (from `curve25519.c`) -/

/-- `ED25519_keypair_from_seed`: hash the seed, clamp, multiply the base
point, and return (public key, seed ‖ public key). -/
def ED25519_keypair_from_seed {Pt : Type} [AddCommGroup Pt] (E : GeEngine Pt)
    (H : List Nat → List Nat) (seed : List Nat) : List Nat × List Nat :=
  let az := clampScalar (H (seed.take 32))
  let pub := E.encode (ge_scalarmult_base E az)
  (pub, seed.take 32 ++ pub.take 32)

/-- Scratch-buffer state of `ED25519_sign` at function return: the produced
signature together with the final contents of the stack buffers `az` (clamped
digest of the private half) and `nonce` (reduced nonce scalar), which the
source never overwrites after their last use. -/
structure SignState where
  sig : List Nat
  az : List Nat
  nonce : List Nat

/-- `ED25519_sign`, with the final contents of its secret-holding scratch
buffers exposed.  Follows the source line by line: hash the private half,
clamp, derive and reduce the nonce, compute `R`, compute the challenge, and
finish with `sc_muladd`. -/
def ED25519_sign_state {Pt : Type} [AddCommGroup Pt] (E : GeEngine Pt)
    (H : List Nat → List Nat) (message priv : List Nat) : SignState :=
  let az := clampScalarSign (H (priv.take 32))
  let nonce := x25519_sc_reduce (H ((az.drop 32).take 32 ++ message))
  let rEnc := (E.encode (ge_scalarmult_base E nonce)).take 32
  let hram := x25519_sc_reduce (H (rEnc ++ (priv.drop 32).take 32 ++ message))
  let s := sc_muladd hram az nonce
  { sig := rEnc ++ s.take 32, az := az, nonce := nonce }

/-- `ED25519_sign`: the 64-byte signature `R ‖ S`. -/
def ED25519_sign {Pt : Type} [AddCommGroup Pt] (E : GeEngine Pt)
    (H : List Nat → List Nat) (message priv : List Nat) : List Nat :=
  (ED25519_sign_state E H message priv).sig

/-- `ED25519_verify`: reject if the top 3 bits of the last signature byte are
set or the public key fails to decode; negate the decoded point; reject if
`S ≥ L` via the limb loop; recompute the challenge; compare the encoded
double-scalar-multiplication result against `R`. -/
def ED25519_verify {Pt : Type} [AddCommGroup Pt] (E : GeEngine Pt)
    (H : List Nat → List Nat) (message sig pk : List Nat) : Bool :=
  if sig.getD 63 0 &&& 224 ≠ 0 then false
  else
    match E.decode (pk.take 32) with
    | none => false
    | some A0 =>
      let A := -A0
      let rcopy := sig.take 32
      let scopy := (sig.drop 32).take 32
      if sCheck scopy then
        let h := x25519_sc_reduce (H (sig.take 32 ++ pk.take 32 ++ message))
        let rcheck := (E.encode (ge_double_scalarmult_vartime E h A scopy)).take 32
        decide (rcheck = rcopy)
      else false

/-- `OPENSSL_cleanse`: overwrite a buffer with the secret-erasing pattern
(zero bytes). -/
def OPENSSL_cleanse (b : List Nat) : List Nat := List.replicate b.length 0

/-- Buffer state of `ED25519_keypair` at return: the keypair plus the final
contents of the stack `seed` buffer, which the source cleanses. -/
structure KeypairState where
  pub : List Nat
  priv : List Nat
  seed : List Nat

/-- `ED25519_keypair` with the final contents of the seed buffer exposed;
`rand` stands for the 32 bytes drawn from the random source. -/
def ED25519_keypair_state {Pt : Type} [AddCommGroup Pt] (E : GeEngine Pt)
    (H : List Nat → List Nat) (rand : List Nat) : KeypairState :=
  let seed := rand.take 32
  let kp := ED25519_keypair_from_seed E H seed
  { pub := kp.1, priv := kp.2, seed := OPENSSL_cleanse seed }

/- ### Concrete engines used to witness the theorems -/

/-- Degenerate engine over the trivial group, used to exercise the code paths
that never reach the arithmetic engine. -/
def unitEngine : GeEngine Unit :=
  { B := (), encode := fun _ => List.replicate 32 0, decode := fun _ => some () }

/-- C1: for every message, signature and public key, if the last 32 signature
bytes read little-endian are `≥ L` (equality included), `ED25519_verify`
returns `false`; in particular a signature whose `S` half was replaced by
`S + L` (still below `2^256`) is rejected. -/
theorem ed25519_verify_rejects_high_S {Pt : Type} [AddCommGroup Pt]
    (E : GeEngine Pt) (H : List Nat → List Nat) (message sig pk : List Nat)
    (hlen : sig.length = 64) (hbytes : ∀ b ∈ sig, b < 256)
    (hS : L ≤ leNum (sig.drop 32)) :
    ED25519_verify E H message sig pk = false := by
  unfold ED25519_verify
  by_cases htop : sig.getD 63 0 &&& 224 ≠ 0
  · rw [if_pos htop]
  · rw [if_neg htop]
    cases hdec : E.decode (pk.take 32) with
    | none => rfl
    | some A0 =>
      have hdlen : (sig.drop 32).length = 32 := by simp [hlen]
      have ht : (sig.drop 32).take 32 = sig.drop 32 := take_of_length_eq hdlen
      have hb : ∀ b ∈ sig.drop 32, b < 256 :=
        fun b hb => hbytes b (List.drop_subset _ _ hb)
      cases hsc : sCheck (sig.drop 32) with
      | true =>
        exact absurd ((sCheck_iff _ hdlen hb).1 hsc) (by omega)
      | false => simp [ht, hsc]

theorem ed25519_verify_rejects_high_S_witness :
    ED25519_verify unitEngine (fun _ => List.replicate 64 0) []
      (List.replicate 32 0 ++ leBytes L 32) (List.replicate 32 0) = false :=
  ed25519_verify_rejects_high_S unitEngine (fun _ => List.replicate 64 0) []
    (List.replicate 32 0 ++ leBytes L 32) (List.replicate 32 0)
    (by decide) (by decide) (by decide)

/-- C3: whenever the top 3 bits of the signature's last byte are set or the
public key fails to decode as a curve point, `ED25519_verify` returns the
boolean failure result — for every hash function, showing that the rejection
happens before any challenge computation. -/
theorem ed25519_verify_early_reject {Pt : Type} [AddCommGroup Pt]
    (E : GeEngine Pt) (message sig pk : List Nat)
    (hrej : sig.getD 63 0 &&& 224 ≠ 0 ∨ E.decode (pk.take 32) = none) :
    ∀ H : List Nat → List Nat, ED25519_verify E H message sig pk = false := by
  intro H
  unfold ED25519_verify
  rcases hrej with h | h
  · rw [if_pos h]
  · by_cases htop : sig.getD 63 0 &&& 224 ≠ 0
    · rw [if_pos htop]
    · rw [if_neg htop, h]

theorem ed25519_verify_early_reject_witness :
    ED25519_verify unitEngine (fun _ => List.replicate 64 0) []
      (List.replicate 64 255) [] = false :=
  ed25519_verify_early_reject unitEngine [] (List.replicate 64 255) []
    (Or.inl (by decide)) (fun _ => List.replicate 64 0)

/- ### X25519 engine and backend dispatch (from `curve25519.c`) -/

/-- Compile-time architecture of the build (the `OPENSSL_X86_64` /
`OPENSSL_AARCH64` preprocessor split). -/
inductive Arch
  | x86_64
  | aarch64
  | other
deriving DecidableEq

/-- One-time-probed CPU feature flags consumed by the capability queries
(`CRYPTO_is_ARMv8_wide_multiplier_capable`, `CRYPTO_is_BMI2_capable`,
`CRYPTO_is_ADX_capable`). -/
structure CpuFeats where
  armv8WideMultiplier : Bool
  bmi2 : Bool
  adx : Bool
deriving DecidableEq

/-- `x25519_s2n_bignum_alt_capable`: on x86_64 always 1; on aarch64, 1 iff
the CPU has a wide multiplier; 0 on all other architectures. -/
def x25519_s2n_bignum_alt_capable : Arch → CpuFeats → Bool
  | .x86_64, _ => true
  | .aarch64, f => f.armv8WideMultiplier
  | .other, _ => false

/-- `x25519_s2n_bignum_no_alt_capable`: on x86_64, 1 iff BMI2 and ADX are
both supported; on aarch64 always 1; 0 on all other architectures. -/
def x25519_s2n_bignum_no_alt_capable : Arch → CpuFeats → Bool
  | .x86_64, f => f.bmi2 && f.adx
  | .aarch64, _ => true
  | .other, _ => false

/-- Buffer state of `x25519_s2n_bignum` (or its `public_from_private`
sibling) at return: the output (`none` when the function hits `abort()`), the
final contents of the local `private_key_internal_demask` buffer, and the
caller's private-key buffer, which the function only reads. -/
structure X25519St where
  out : Option (List Nat)
  demask : List Nat
  priv : List Nat

/-- `x25519_s2n_bignum`: copy and clamp the private scalar, then dispatch to
`curve25519_x25519_byte` / `curve25519_x25519_byte_alt` with an
architecture-specific priority, aborting when neither capability holds.  The
two backend routines are external collaborators passed as parameters; the
32-byte output buffer is modelled by truncating their result to 32 bytes. -/
def x25519_s2n_bignum_state (a : Arch) (f : CpuFeats)
    (curve_byte curve_byte_alt : List Nat → List Nat → List Nat)
    (priv peer : List Nat) : X25519St :=
  let demask := clampScalar (priv.take 32)
  let out :=
    match a with
    | .x86_64 =>
      if x25519_s2n_bignum_no_alt_capable a f then
        some ((curve_byte demask (peer.take 32)).take 32)
      else if x25519_s2n_bignum_alt_capable a f then
        some ((curve_byte_alt demask (peer.take 32)).take 32)
      else none
    | .aarch64 =>
      if x25519_s2n_bignum_alt_capable a f then
        some ((curve_byte_alt demask (peer.take 32)).take 32)
      else if x25519_s2n_bignum_no_alt_capable a f then
        some ((curve_byte demask (peer.take 32)).take 32)
      else none
    | .other => none
  { out := out, demask := demask, priv := priv }

/-- `x25519_s2n_bignum_public_from_private`: same structure with the
base-point routines `curve25519_x25519base_byte` /
`curve25519_x25519base_byte_alt`. -/
def x25519_s2n_bignum_public_from_private_state (a : Arch) (f : CpuFeats)
    (base_byte base_byte_alt : List Nat → List Nat)
    (priv : List Nat) : X25519St :=
  let demask := clampScalar (priv.take 32)
  let out :=
    match a with
    | .x86_64 =>
      if x25519_s2n_bignum_no_alt_capable a f then
        some ((base_byte demask).take 32)
      else if x25519_s2n_bignum_alt_capable a f then
        some ((base_byte_alt demask).take 32)
      else none
    | .aarch64 =>
      if x25519_s2n_bignum_alt_capable a f then
        some ((base_byte_alt demask).take 32)
      else if x25519_s2n_bignum_no_alt_capable a f then
        some ((base_byte demask).take 32)
      else none
    | .other => none
  { out := out, demask := demask, priv := priv }

/-- Build configuration and external collaborators of the top-level X25519
entry points: whether the s2n-bignum path is compiled in
(`x25519_s2n_bignum_capable`), the architecture, the probed CPU features, the
two accelerated scalar-multiplication backends, the two accelerated base-point
backends, and the portable fallbacks (`x25519_scalar_mult_generic_nohw`,
`x25519_public_from_private_nohw`). -/
structure X25519Cfg where
  s2nCapable : Bool
  arch : Arch
  feats : CpuFeats
  curve_byte : List Nat → List Nat → List Nat
  curve_byte_alt : List Nat → List Nat → List Nat
  base_byte : List Nat → List Nat
  base_byte_alt : List Nat → List Nat
  nohw_mult : List Nat → List Nat → List Nat
  nohw_base : List Nat → List Nat

/-- `X25519`: run the selected scalar multiplication, then return the shared
secret together with the success flag `CRYPTO_memcmp(kZeros, out, 32) != 0`.
The result is `none` exactly when the dispatch hit `abort()`. -/
def X25519 (c : X25519Cfg) (priv peer : List Nat) : Option (Bool × List Nat) :=
  let out? :=
    if c.s2nCapable then
      (x25519_s2n_bignum_state c.arch c.feats c.curve_byte c.curve_byte_alt
        priv peer).out
    else some ((c.nohw_mult (priv.take 32) (peer.take 32)).take 32)
  match out? with
  | none => none
  | some out => some (decide (¬ out = List.replicate 32 0), out)

/-- `X25519_public_from_private`: dispatch to the accelerated base-point
path when compiled in, else to the portable fallback. -/
def X25519_public_from_private (c : X25519Cfg) (priv : List Nat) :
    Option (List Nat) :=
  if c.s2nCapable then
    (x25519_s2n_bignum_public_from_private_state c.arch c.feats c.base_byte
      c.base_byte_alt priv).out
  else some ((c.nohw_base (priv.take 32)).take 32)

/-- `X25519_keypair`: draw 32 random bytes (`rand`), apply the opposite of
the clamping masks to the stored key (`priv[0] |= ~248; priv[31] &= ~64;
priv[31] |= ~127`, i.e. `|= 7`, `&= 191`, `|= 128` on bytes), then derive the
public value from the stored private key. -/
def X25519_keypair (c : X25519Cfg) (rand : List Nat) :
    Option (List Nat × List Nat) :=
  let priv := rand.take 32
  let priv := priv.set 0 (priv.getD 0 0 ||| 7)
  let priv := priv.set 31 (priv.getD 31 0 &&& 191)
  let priv := priv.set 31 (priv.getD 31 0 ||| 128)
  match X25519_public_from_private c priv with
  | none => none
  | some pub => some (pub, priv)

/- ### Byte-level helper lemmas -/

theorem getD_set_self {l : List Nat} {i : Nat} (h : i < l.length) (v : Nat) :
    (l.set i v).getD i 0 = v := by
  simp [List.getD_eq_getElem?_getD, List.getElem?_set_self h]

theorem getD_set_ne {l : List Nat} {i j : Nat} (h : i ≠ j) (v : Nat) :
    (l.set i v).getD j 0 = l.getD j 0 := by
  simp [List.getD_eq_getElem?_getD, List.getElem?_set_ne h]

theorem getD_mem {l : List Nat} {i : Nat} (h : i < l.length) :
    l.getD i 0 ∈ l := by
  rw [List.getD_eq_getElem?_getD, List.getElem?_eq_getElem h]
  exact List.getElem_mem h

theorem getD_of_lt {l : List Nat} {i : Nat} (h : i < l.length) :
    l[i]? = some (l.getD i 0) := by
  rw [List.getElem?_eq_getElem h, List.getD_eq_getElem?_getD,
    List.getElem?_eq_getElem h]
  rfl

theorem drop_set_of_lt (l : List Nat) (i n v : Nat) (h : i < n) :
    (l.set i v).drop n = l.drop n := by
  apply List.ext_getElem?
  intro j
  rw [List.getElem?_drop, List.getElem?_drop,
    List.getElem?_set_ne (by omega)]

set_option maxRecDepth 4096 in
theorem and127_or64_eq_and63_or64 :
    ∀ x < 256, (x &&& 127) ||| 64 = (x &&& 63) ||| 64 := by decide

theorem and224_of_lt32 : ∀ x < 32, x &&& 224 = 0 := by decide

set_option maxRecDepth 4096 in
theorem inverse_mask_byte0 : ∀ x < 256, (x ||| 7) &&& 248 = x &&& 248 := by
  decide

set_option maxRecDepth 4096 in
theorem inverse_mask_byte31 :
    ∀ x < 256, (((x &&& 191) ||| 128) &&& 127) ||| 64 = (x &&& 127) ||| 64 := by
  decide

/-- Two 32-byte scalars that agree outside the clamped bit positions have the
same clamped image. -/
theorem clampScalar_congr (k1 k2 : List Nat)
    (h1 : k1.length = 32) (h2 : k2.length = 32)
    (hlow : k1.getD 0 0 &&& 248 = k2.getD 0 0 &&& 248)
    (hhigh : (k1.getD 31 0 &&& 127) ||| 64 = (k2.getD 31 0 &&& 127) ||| 64)
    (hmid : ∀ i, 0 < i → i < 31 → k1.getD i 0 = k2.getD i 0) :
    clampScalar k1 = clampScalar k2 := by
  unfold clampScalar
  apply List.ext_getElem?
  intro j
  by_cases hj31 : j = 31
  · subst hj31
    rw [List.getElem?_set_self (by simp [h1]),
      List.getElem?_set_self (by simp [h2]), hhigh]
  · rw [List.getElem?_set_ne (fun h => hj31 h.symm),
      List.getElem?_set_ne (fun h => hj31 h.symm)]
    by_cases hj0 : j = 0
    · subst hj0
      rw [List.getElem?_set_self (by omega),
        List.getElem?_set_self (by omega), hlow]
    · rw [List.getElem?_set_ne (fun h => hj0 h.symm),
        List.getElem?_set_ne (fun h => hj0 h.symm)]
      by_cases hjlen : j < 32
      · rw [getD_of_lt (by omega), getD_of_lt (by omega),
          hmid j (by omega) (by omega)]
      · rw [List.getElem?_eq_none (by omega), List.getElem?_eq_none (by omega)]

/- ### C5: backend selection priority -/

/-- C5: with the accelerated path compiled in, dispatch follows the fixed
architecture priority — on x86_64 the BMI2+ADX (`no_alt`) backend when its
capability predicate holds, else the standard-instruction (`alt`) backend; on
aarch64 the wide-multiplier (`alt`) backend when available, else the `no_alt`
backend — and when neither capability predicate holds the function aborts
(`out = none`) instead of producing a result. -/
theorem x25519_backend_priority (a : Arch) (f : CpuFeats)
    (cb cba : List Nat → List Nat → List Nat) (priv peer : List Nat) :
    (a = Arch.x86_64 →
      (x25519_s2n_bignum_state a f cb cba priv peer).out =
        some ((if f.bmi2 && f.adx then
            cb (clampScalar (priv.take 32)) (peer.take 32)
          else cba (clampScalar (priv.take 32)) (peer.take 32)).take 32)) ∧
    (a = Arch.aarch64 →
      (x25519_s2n_bignum_state a f cb cba priv peer).out =
        some ((if f.armv8WideMultiplier then
            cba (clampScalar (priv.take 32)) (peer.take 32)
          else cb (clampScalar (priv.take 32)) (peer.take 32)).take 32)) ∧
    (x25519_s2n_bignum_alt_capable a f = false →
      x25519_s2n_bignum_no_alt_capable a f = false →
      (x25519_s2n_bignum_state a f cb cba priv peer).out = none) := by
  refine ⟨?_, ?_, ?_⟩
  · rintro rfl
    cases hb : f.bmi2 && f.adx <;>
      simp [x25519_s2n_bignum_state, x25519_s2n_bignum_no_alt_capable,
        x25519_s2n_bignum_alt_capable, hb]
  · rintro rfl
    cases hb : f.armv8WideMultiplier <;>
      simp [x25519_s2n_bignum_state, x25519_s2n_bignum_no_alt_capable,
        x25519_s2n_bignum_alt_capable, hb]
  · intro h1 h2
    cases a <;> simp_all [x25519_s2n_bignum_state,
      x25519_s2n_bignum_no_alt_capable, x25519_s2n_bignum_alt_capable]

theorem x25519_backend_priority_witness :
    (x25519_s2n_bignum_state Arch.other ⟨false, false, false⟩
      (fun _ _ => []) (fun _ _ => []) [] []).out = none :=
  (x25519_backend_priority Arch.other ⟨false, false, false⟩
    (fun _ _ => []) (fun _ _ => []) [] []).2.2 rfl rfl

/- ### C9: clamping happens on a local copy only -/

/-- C9: both `x25519_s2n_bignum` and
`x25519_s2n_bignum_public_from_private` leave the caller's private-key buffer
untouched, and the clamping masks are applied to the local
`private_key_internal_demask` copy of the first 32 key bytes. -/
theorem x25519_clamps_only_local_copy (a : Arch) (f : CpuFeats)
    (cb cba : List Nat → List Nat → List Nat)
    (bb bba : List Nat → List Nat) (priv peer : List Nat) :
    (x25519_s2n_bignum_state a f cb cba priv peer).priv = priv ∧
    (x25519_s2n_bignum_state a f cb cba priv peer).demask
      = clampScalar (priv.take 32) ∧
    (x25519_s2n_bignum_public_from_private_state a f bb bba priv).priv
      = priv ∧
    (x25519_s2n_bignum_public_from_private_state a f bb bba priv).demask
      = clampScalar (priv.take 32) :=
  ⟨rfl, rfl, rfl, rfl⟩

/- ### C10: discarded bits never influence the output -/

/-- C10: two private keys that agree outside the low 3 bits of byte 0 and the
top 2 bits of byte 31 clamp to the same scalar, so `x25519_s2n_bignum` and
`x25519_s2n_bignum_public_from_private` produce identical output for them,
whatever backend functions and architecture are in effect. -/
theorem x25519_discarded_bits_no_influence (k1 k2 : List Nat)
    (h1 : k1.length = 32) (h2 : k2.length = 32)
    (hb1 : ∀ b ∈ k1, b < 256) (hb2 : ∀ b ∈ k2, b < 256)
    (hlow : k1.getD 0 0 &&& 248 = k2.getD 0 0 &&& 248)
    (hhigh : k1.getD 31 0 &&& 63 = k2.getD 31 0 &&& 63)
    (hmid : ∀ i, 0 < i → i < 31 → k1.getD i 0 = k2.getD i 0)
    (a : Arch) (f : CpuFeats) (cb cba : List Nat → List Nat → List Nat)
    (bb bba : List Nat → List Nat) (peer : List Nat) :
    (x25519_s2n_bignum_state a f cb cba k1 peer).out
      = (x25519_s2n_bignum_state a f cb cba k2 peer).out ∧
    (x25519_s2n_bignum_public_from_private_state a f bb bba k1).out
      = (x25519_s2n_bignum_public_from_private_state a f bb bba k2).out := by
  have hm1 : k1.getD 31 0 < 256 := hb1 _ (getD_mem (by omega))
  have hm2 : k2.getD 31 0 < 256 := hb2 _ (getD_mem (by omega))
  have hhigh' : (k1.getD 31 0 &&& 127) ||| 64 = (k2.getD 31 0 &&& 127) ||| 64 := by
    rw [and127_or64_eq_and63_or64 _ hm1, and127_or64_eq_and63_or64 _ hm2, hhigh]
  have hc : clampScalar k1 = clampScalar k2 :=
    clampScalar_congr k1 k2 h1 h2 hlow hhigh' hmid
  constructor
  · simp only [x25519_s2n_bignum_state, take_of_length_eq h1,
      take_of_length_eq h2, hc]
  · simp only [x25519_s2n_bignum_public_from_private_state,
      take_of_length_eq h1, take_of_length_eq h2, hc]

theorem x25519_discarded_bits_no_influence_witness :
    (x25519_s2n_bignum_state Arch.aarch64 ⟨true, false, false⟩
        (fun _ _ => []) (fun _ _ => []) (List.replicate 32 0) []).out
      = (x25519_s2n_bignum_state Arch.aarch64 ⟨true, false, false⟩
        (fun _ _ => []) (fun _ _ => [])
        ((List.replicate 32 0).set 0 7) []).out :=
  (x25519_discarded_bits_no_influence (List.replicate 32 0)
    ((List.replicate 32 0).set 0 7) (by decide) (by decide) (by decide)
    (by decide) (by decide) (by decide)
    (by intro i hi hj; exact (getD_set_ne (by omega) _).symm)
    Arch.aarch64 ⟨true, false, false⟩ (fun _ _ => []) (fun _ _ => [])
    (fun _ => []) (fun _ => []) []).1

/- ### C7: keypair stores the inverse-clamped random bytes -/

/-- C7: after `X25519_keypair`, the stored private key is exactly the freshly
drawn random bytes with the opposite of the clamping masks applied (low 3
bits of byte 0 set, bit 6 of byte 31 cleared, bit 7 of byte 31 set), all
other bytes unchanged; the returned public value is
`X25519_public_from_private` of that stored key; and clamping the stored key
yields the same scalar as clamping the original random bytes, which is why
the deliberate inverse masking does not change the public value. -/
theorem x25519_keypair_inverse_clamped (c : X25519Cfg) (rand : List Nat)
    (hlen : rand.length = 32) (hbytes : ∀ b ∈ rand, b < 256)
    (pub priv : List Nat)
    (h : X25519_keypair c rand = some (pub, priv)) :
    priv.length = 32 ∧
    priv.getD 0 0 = rand.getD 0 0 ||| 7 ∧
    priv.getD 31 0 = (rand.getD 31 0 &&& 191) ||| 128 ∧
    (∀ i, 0 < i → i < 31 → priv.getD i 0 = rand.getD i 0) ∧
    X25519_public_from_private c priv = some pub ∧
    clampScalar priv = clampScalar rand := by
  have htake : rand.take 32 = rand := take_of_length_eq hlen
  unfold X25519_keypair at h
  simp only [htake] at h
  set P1 := rand.set 0 (rand.getD 0 0 ||| 7) with hP1
  set P2 := P1.set 31 (P1.getD 31 0 &&& 191) with hP2
  set P3 := P2.set 31 (P2.getD 31 0 ||| 128) with hP3
  cases hm : X25519_public_from_private c P3 with
  | none => rw [hm] at h; exact absurd h (by simp)
  | some pub' =>
    rw [hm] at h
    simp only [Option.some.injEq, Prod.mk.injEq] at h
    obtain ⟨hpub, hpriv⟩ := h
    subst hpub
    have hL1 : P1.length = 32 := by simp [hP1, hlen]
    have hL2 : P2.length = 32 := by simp [hP2, hL1]
    have hL3 : P3.length = 32 := by simp [hP3, hL2]
    have e31a : P1.getD 31 0 = rand.getD 31 0 := getD_set_ne (by omega) _
    have e31b : P2.getD 31 0 = rand.getD 31 0 &&& 191 := by
      rw [hP2, getD_set_self (by omega) _, e31a]
    have e31 : P3.getD 31 0 = (rand.getD 31 0 &&& 191) ||| 128 := by
      rw [hP3, getD_set_self (by omega) _, e31b]
    have e0 : P3.getD 0 0 = rand.getD 0 0 ||| 7 := by
      rw [hP3, getD_set_ne (by omega) _, hP2, getD_set_ne (by omega) _,
        hP1, getD_set_self (by omega) _]
    have emid : ∀ i, 0 < i → i < 31 → P3.getD i 0 = rand.getD i 0 := by
      intro i hi0 hi31
      rw [hP3, getD_set_ne (by omega) _, hP2, getD_set_ne (by omega) _,
        hP1, getD_set_ne (by omega) _]
    have hb0 : rand.getD 0 0 < 256 := hbytes _ (getD_mem (by omega))
    have hb31 : rand.getD 31 0 < 256 := hbytes _ (getD_mem (by omega))
    have hclamp : clampScalar P3 = clampScalar rand := by
      apply clampScalar_congr P3 rand hL3 hlen
      · rw [e0, inverse_mask_byte0 _ hb0]
      · rw [e31, inverse_mask_byte31 _ hb31]
      · exact emid
    subst hpriv
    exact ⟨hL3, e0, e31, emid, hm, hclamp⟩

/- ### C4 and C6: contributory-behaviour check and backend invisibility -/

/-- Reformulation of `X25519` as a map over the optional backend output. -/
theorem X25519_eq_map (c : X25519Cfg) (priv peer : List Nat) :
    X25519 c priv peer
      = Option.map (fun out => (decide (¬ out = List.replicate 32 0), out))
          (if c.s2nCapable then
            (x25519_s2n_bignum_state c.arch c.feats c.curve_byte
              c.curve_byte_alt priv peer).out
          else some ((c.nohw_mult (priv.take 32) (peer.take 32)).take 32)) := by
  cases h : (if c.s2nCapable then
      (x25519_s2n_bignum_state c.arch c.feats c.curve_byte
        c.curve_byte_alt priv peer).out
    else some ((c.nohw_mult (priv.take 32) (peer.take 32)).take 32)) with
  | none => simp [X25519, h]
  | some out => simp [X25519, h]

/-- Concrete portable-build configuration with constant-zero collaborators,
used to witness the dispatch-layer theorems. -/
def zeroCfg : X25519Cfg where
  s2nCapable := false
  arch := Arch.other
  feats := ⟨false, false, false⟩
  curve_byte := fun _ _ => List.replicate 32 0
  curve_byte_alt := fun _ _ => List.replicate 32 0
  base_byte := fun _ => List.replicate 32 0
  base_byte_alt := fun _ => List.replicate 32 0
  nohw_mult := fun _ _ => List.replicate 32 0
  nohw_base := fun _ => List.replicate 32 0

/-- C4: `X25519` reports failure exactly when the computed shared secret is
all-zero while still handing the (worthless) output to the caller, and an
all-zero peer public value always produces `ok = false` with a zero shared
secret.  The fact that every backend maps an all-zero peer input to the
all-zero output is a property of the external scalar-multiplication routines,
stated as the three hypotheses (modelled from the spec's small-order /
contributory-behaviour contract). -/
theorem x25519_contributory_failure (c : X25519Cfg)
    (hz : ∀ s, (c.curve_byte s (List.replicate 32 0)).take 32
        = List.replicate 32 0)
    (hza : ∀ s, (c.curve_byte_alt s (List.replicate 32 0)).take 32
        = List.replicate 32 0)
    (hzn : ∀ s, (c.nohw_mult s (List.replicate 32 0)).take 32
        = List.replicate 32 0)
    (priv peer : List Nat) (r : Bool × List Nat)
    (hr : X25519 c priv peer = some r) :
    (r.1 = false ↔ r.2 = List.replicate 32 0) ∧
    (peer = List.replicate 32 0 → r = (false, List.replicate 32 0)) := by
  rw [X25519_eq_map, Option.map_eq_some'] at hr
  obtain ⟨out, hout, hfr⟩ := hr
  subst hfr
  have ht0 : (List.replicate 32 0 : List Nat).take 32 = List.replicate 32 0 :=
    take_of_length_eq (by simp)
  constructor
  · simp [decide_eq_false_iff_not]
  · intro hp
    subst hp
    have hzz : out = List.replicate 32 0 := by
      by_cases hcap : c.s2nCapable
      · rw [if_pos hcap] at hout
        simp only [x25519_s2n_bignum_state] at hout
        cases harch : c.arch
        all_goals rw [harch] at hout
        · cases hno : x25519_s2n_bignum_no_alt_capable Arch.x86_64 c.feats
          all_goals rw [hno] at hout
          all_goals simp only [Bool.false_eq_true, if_false, if_true,
            x25519_s2n_bignum_alt_capable, ht0] at hout
          · rw [hza] at hout
            exact (Option.some.injEq _ _ ▸ hout).symm
          · rw [hz] at hout
            exact (Option.some.injEq _ _ ▸ hout).symm
        · cases halt : x25519_s2n_bignum_alt_capable Arch.aarch64 c.feats
          all_goals rw [halt] at hout
          all_goals simp only [Bool.false_eq_true, if_false, if_true,
            x25519_s2n_bignum_no_alt_capable, ht0] at hout
          · rw [hz] at hout
            exact (Option.some.injEq _ _ ▸ hout).symm
          · rw [hza] at hout
            exact (Option.some.injEq _ _ ▸ hout).symm
        · simp at hout
      · rw [if_neg hcap] at hout
        rw [ht0, hzn] at hout
        exact (Option.some.injEq _ _ ▸ hout).symm
    subst hzz
    simp

theorem x25519_contributory_failure_witness :
    ((false, List.replicate 32 0) : Bool × List Nat).1 = false ↔
      ((false, List.replicate 32 0) : Bool × List Nat).2
        = List.replicate 32 0 :=
  (x25519_contributory_failure zeroCfg
    (fun s => by
      show (List.replicate 32 0 : List Nat).take 32 = List.replicate 32 0
      exact take_of_length_eq (by simp))
    (fun s => by
      show (List.replicate 32 0 : List Nat).take 32 = List.replicate 32 0
      exact take_of_length_eq (by simp))
    (fun s => by
      show (List.replicate 32 0 : List Nat).take 32 = List.replicate 32 0
      exact take_of_length_eq (by simp))
    (List.replicate 32 0) (List.replicate 32 0)
    (false, List.replicate 32 0) (by decide)).1

/-- C6: under the specification's contract that the two accelerated backends
and the portable fallback compute the same function (hypotheses `hAgree` and
`hNohw`, modelled from the spec), every successful `X25519` call returns the
very same flag and output bytes no matter which backend the dispatch picked,
and a build without the accelerated path routes transparently to the portable
fallback. -/
theorem x25519_backend_invisible (c : X25519Cfg)
    (hAgree : ∀ s p, c.curve_byte s p = c.curve_byte_alt s p)
    (hNohw : ∀ s p, c.nohw_mult s p = c.curve_byte (clampScalar s) p)
    (priv peer : List Nat) :
    (∀ r, X25519 c priv peer = some r →
      r = (decide (¬ (c.curve_byte (clampScalar (priv.take 32))
              (peer.take 32)).take 32 = List.replicate 32 0),
           (c.curve_byte (clampScalar (priv.take 32)) (peer.take 32)).take 32)) ∧
    (c.s2nCapable = false →
      X25519 c priv peer = some
        (decide (¬ (c.nohw_mult (priv.take 32) (peer.take 32)).take 32
            = List.replicate 32 0),
         (c.nohw_mult (priv.take 32) (peer.take 32)).take 32)) := by
  constructor
  · intro r hr
    rw [X25519_eq_map, Option.map_eq_some'] at hr
    obtain ⟨out, hout, hfr⟩ := hr
    have hoz : out = (c.curve_byte (clampScalar (priv.take 32))
        (peer.take 32)).take 32 := by
      by_cases hcap : c.s2nCapable
      · rw [if_pos hcap] at hout
        simp only [x25519_s2n_bignum_state] at hout
        cases harch : c.arch
        all_goals rw [harch] at hout
        · cases hno : x25519_s2n_bignum_no_alt_capable Arch.x86_64 c.feats
          all_goals rw [hno] at hout
          all_goals simp only [Bool.false_eq_true, if_false, if_true,
            x25519_s2n_bignum_alt_capable] at hout
          · rw [← hAgree] at hout
            exact (Option.some.injEq _ _ ▸ hout).symm
          · exact (Option.some.injEq _ _ ▸ hout).symm
        · cases halt : x25519_s2n_bignum_alt_capable Arch.aarch64 c.feats
          all_goals rw [halt] at hout
          all_goals simp only [Bool.false_eq_true, if_false, if_true,
            x25519_s2n_bignum_no_alt_capable] at hout
          · exact (Option.some.injEq _ _ ▸ hout).symm
          · rw [← hAgree] at hout
            exact (Option.some.injEq _ _ ▸ hout).symm
        · simp at hout
      · rw [if_neg hcap] at hout
        rw [hNohw] at hout
        exact (Option.some.injEq _ _ ▸ hout).symm
    subst hfr
    rw [hoz]
  · intro hcap
    rw [X25519_eq_map, if_neg (by simp [hcap])]
    rfl

theorem x25519_backend_invisible_witness :
    X25519 zeroCfg [] [] = some
      (decide (¬ (zeroCfg.nohw_mult (([] : List Nat).take 32)
          (([] : List Nat).take 32)).take 32 = List.replicate 32 0),
       (zeroCfg.nohw_mult (([] : List Nat).take 32)
          (([] : List Nat).take 32)).take 32) :=
  (x25519_backend_invisible zeroCfg (fun _ _ => rfl) (fun _ _ => rfl)
    [] []).2 rfl

theorem x25519_keypair_inverse_clamped_witness :
    X25519_public_from_private zeroCfg
        (7 :: (List.replicate 30 0 ++ [128])) = some (List.replicate 32 0) :=
  (x25519_keypair_inverse_clamped zeroCfg (List.replicate 32 0) (by decide)
    (by decide) (List.replicate 32 0) (7 :: (List.replicate 30 0 ++ [128]))
    (by decide)).2.2.2.2.1

/- ### C8: scratch-buffer contents at function return -/

/-- C8 counterexample: the claim says every scratch buffer that held private
scalar material is overwritten with the secret-erasing pattern before return;
but `ED25519_sign` returns with its `az` buffer still holding the clamped
digest of the private half, not the erased pattern. -/
theorem sign_az_not_wiped_counterexample :
    (ED25519_sign_state unitEngine (fun _ => List.replicate 64 255) []
        (List.replicate 64 0)).az
      ≠ List.replicate 64 0 := by decide

/-- C8 (amended): `ED25519_keypair` does cleanse its seed buffer, but
`ED25519_sign` returns with `az` and `nonce` still holding the clamped digest
and the reduced nonce scalar, and `x25519_s2n_bignum` returns with the
demasked scalar copy still holding the clamped private key — these scratch
buffers are not overwritten before return. -/
theorem scratch_buffer_final_contents {Pt : Type} [AddCommGroup Pt]
    (E : GeEngine Pt) (H : List Nat → List Nat)
    (message priv rand : List Nat) (hrand : rand.length = 32)
    (a : Arch) (f : CpuFeats) (cb cba : List Nat → List Nat → List Nat)
    (priv2 peer : List Nat) :
    (ED25519_sign_state E H message priv).az
      = clampScalarSign (H (priv.take 32)) ∧
    (ED25519_sign_state E H message priv).nonce
      = x25519_sc_reduce
          (H (((clampScalarSign (H (priv.take 32))).drop 32).take 32
            ++ message)) ∧
    (x25519_s2n_bignum_state a f cb cba priv2 peer).demask
      = clampScalar (priv2.take 32) ∧
    (ED25519_keypair_state E H rand).seed = List.replicate 32 0 := by
  refine ⟨rfl, rfl, rfl, ?_⟩
  simp [ED25519_keypair_state, OPENSSL_cleanse, List.length_take, hrand]

theorem scratch_buffer_final_contents_witness :
    (ED25519_keypair_state unitEngine (fun _ => List.replicate 64 0)
        (List.replicate 32 0)).seed = List.replicate 32 0 :=
  (scratch_buffer_final_contents unitEngine (fun _ => List.replicate 64 0)
    [] (List.replicate 64 0) (List.replicate 32 0) (by decide)
    Arch.other ⟨false, false, false⟩ (fun _ _ => []) (fun _ _ => [])
    [] []).2.2.2

/- ### Group-theoretic lemmas for the sign/verify roundtrip -/

theorem nsmul_mod_order {Pt : Type} [AddCommGroup Pt] (B : Pt)
    (hOrd : L • B = 0) (n : Nat) : (n % L) • B = n • B := by
  conv_rhs => rw [← Nat.div_add_mod n L]
  rw [add_nsmul]
  have hz : (L * (n / L)) • B = 0 := by
    rw [mul_nsmul, hOrd, smul_zero]
  rw [hz, zero_add]

theorem nsmul_neg_eq {Pt : Type} [AddCommGroup Pt] (n : Nat) (x : Pt) :
    n • (-x) = -(n • x) := by
  have h : n • (-x) + n • x = 0 := by
    rw [← nsmul_add, neg_add_cancel, smul_zero]
  exact eq_neg_of_add_eq_zero_left h

/-- The verification equation: with the challenge `hv`, the public-key point
negated, and `S = (hv*a + n) mod L`, the double scalar multiplication lands
back on the commitment `n • B`. -/
theorem verify_point_eq {Pt : Type} [AddCommGroup Pt] (B : Pt)
    (hOrd : L • B = 0) (hv a n : Nat) :
    hv • (-(a • B)) + ((hv * a + n) % L) • B = n • B := by
  rw [nsmul_mod_order B hOrd, add_nsmul, nsmul_neg_eq, mul_comm hv a,
    mul_nsmul, neg_add_cancel_left]

theorem getD_append_32 (a b : List Nat) (h : a.length = 32) (i : Nat) :
    (a ++ b).getD (32 + i) 0 = b.getD i 0 := by
  rw [List.getD_eq_getElem?_getD, List.getD_eq_getElem?_getD,
    List.getElem?_append_right (by omega)]
  congr 2
  omega

theorem sig_top_byte_zero (S : Nat) (hS : S < L) :
    (leBytes S 32).getD 31 0 &&& 224 = 0 := by
  have h31 := leBytes_getD S 32 31 (by omega)
  have hlt : S / 256 ^ 31 < 32 := by
    have h1 : S < 2 ^ 253 := lt_trans hS L_lt_two_pow_253
    have h2 : (256 : Nat) ^ 31 = 2 ^ 248 := by norm_num
    rw [h2]
    apply Nat.div_lt_of_lt_mul
    calc S < 2 ^ 253 := h1
      _ = 2 ^ 248 * 32 := by norm_num
  rw [h31]
  exact and224_of_lt32 _ (lt_of_le_of_lt (Nat.mod_le _ _) hlt)

/-- Verification accepts every signature of the canonical shape produced by
the signing path: `R = n • B` encoded, `S = (challenge * a + n) mod L`, with
the challenge recomputed from `R ‖ pk ‖ message`. -/
theorem ed25519_verify_accepts {Pt : Type} [AddCommGroup Pt]
    (E : GeEngine Pt) (H : List Nat → List Nat)
    (hEnc : ∀ P : Pt, (E.encode P).length = 32)
    (hOrd : L • E.B = 0)
    (hDec : ∀ m : Nat, E.decode (E.encode (m • E.B)) = some (m • E.B))
    (message : List Nat) (a n : Nat) :
    ED25519_verify E H message
      (E.encode (n • E.B)
        ++ leBytes ((leNum (H (E.encode (n • E.B) ++ E.encode (a • E.B)
              ++ message)) % L * a + n) % L) 32)
      (E.encode (a • E.B)) = true := by
  have hLpos : 0 < L := by norm_num [L]
  have hR := hEnc (n • E.B)
  have hA := hEnc (a • E.B)
  have hSvlt : (leNum (H (E.encode (n • E.B) ++ E.encode (a • E.B)
      ++ message)) % L * a + n) % L < L := Nat.mod_lt _ hLpos
  have hSlt256 : (leNum (H (E.encode (n • E.B) ++ E.encode (a • E.B)
      ++ message)) % L * a + n) % L < 256 ^ 32 :=
    lt_trans hSvlt L_lt_two_pow_256
  have hhvlt : leNum (H (E.encode (n • E.B) ++ E.encode (a • E.B)
      ++ message)) % L < 256 ^ 32 :=
    lt_trans (Nat.mod_lt _ hLpos) L_lt_two_pow_256
  have hSlen := leBytes_length ((leNum (H (E.encode (n • E.B)
      ++ E.encode (a • E.B) ++ message)) % L * a + n) % L) 32
  have hStake := take_of_length_eq hSlen
  have hsig_take :
      (E.encode (n • E.B) ++ leBytes ((leNum (H (E.encode (n • E.B)
          ++ E.encode (a • E.B) ++ message)) % L * a + n) % L) 32).take 32
        = E.encode (n • E.B) := List.take_left' hR
  have hsig_drop :
      (E.encode (n • E.B) ++ leBytes ((leNum (H (E.encode (n • E.B)
          ++ E.encode (a • E.B) ++ message)) % L * a + n) % L) 32).drop 32
        = leBytes ((leNum (H (E.encode (n • E.B) ++ E.encode (a • E.B)
            ++ message)) % L * a + n) % L) 32 := List.drop_left' hR
  have hpk_take : (E.encode (a • E.B)).take 32 = E.encode (a • E.B) :=
    take_of_length_eq hA
  have hgetD63 :
      (E.encode (n • E.B) ++ leBytes ((leNum (H (E.encode (n • E.B)
          ++ E.encode (a • E.B) ++ message)) % L * a + n) % L) 32).getD 63 0
        = (leBytes ((leNum (H (E.encode (n • E.B) ++ E.encode (a • E.B)
            ++ message)) % L * a + n) % L) 32).getD 31 0 := by
    have h63 : (63 : Nat) = 32 + 31 := by norm_num
    rw [h63]
    exact getD_append_32 _ _ hR 31
  have hsc : sCheck (leBytes ((leNum (H (E.encode (n • E.B)
      ++ E.encode (a • E.B) ++ message)) % L * a + n) % L) 32) = true := by
    rw [sCheck_iff _ (leBytes_length _ _) (leBytes_bytes_lt _ _),
      leNum_leBytes _ _ hSlt256]
    exact hSvlt
  unfold ED25519_verify
  rw [hgetD63, if_neg (not_ne_iff.mpr (sig_top_byte_zero _ hSvlt))]
  rw [hpk_take, hDec a]
  simp only [hsig_drop, hStake, hsig_take, hsc, if_true]
  rw [x25519_sc_reduce]
  unfold ge_double_scalarmult_vartime
  rw [take_of_length_eq (leBytes_length _ _), leNum_leBytes _ _ hhvlt,
    take_of_length_eq (leBytes_length _ _), leNum_leBytes _ _ hSlt256,
    verify_point_eq E.B hOrd _ a n]
  simp
  exact Nat.le_of_eq hR

theorem take32_leBytes (n : Nat) : (leBytes n 32).take 32 = leBytes n 32 :=
  take_of_length_eq (leBytes_length n 32)

theorem leNum_leBytes_mod (n : Nat) : leNum (leBytes (n % L) 32) = n % L :=
  leNum_leBytes _ _
    (lt_trans (Nat.mod_lt _ (by norm_num [L])) L_lt_two_pow_256)

/-- C2: for every message and every keypair generated from a 32-byte seed,
verification of the signature produced by signing that message with the
generated private key, against the generated public key, succeeds. -/
theorem ed25519_sign_verify_roundtrip {Pt : Type} [AddCommGroup Pt]
    (E : GeEngine Pt) (H : List Nat → List Nat)
    (hH : ∀ x, (H x).length = 64)
    (hHb : ∀ x, ∀ b ∈ H x, b < 256)
    (hEnc : ∀ P : Pt, (E.encode P).length = 32)
    (hOrd : L • E.B = 0)
    (hDec : ∀ m : Nat, E.decode (E.encode (m • E.B)) = some (m • E.B))
    (seed message : List Nat) (hseed : seed.length = 32) :
    ED25519_verify E H message
      (ED25519_sign E H message (ED25519_keypair_from_seed E H seed).2)
      (ED25519_keypair_from_seed E H seed).1 = true := by
  have hLpos : 0 < L := by norm_num [L]
  have hσ : (seed.take 32).length = 32 := by simp [hseed]
  have haz64 : (H (seed.take 32)).length = 64 := hH _
  have hb31 : (H (seed.take 32)).getD 31 0 < 256 := hHb _ _ (getD_mem (by omega))
  have hclampeq : clampScalarSign (H (seed.take 32))
      = clampScalar (H (seed.take 32)) := by
    unfold clampScalar clampScalarSign
    rw [and127_or64_eq_and63_or64 _ hb31]
  have hkey1 : (ED25519_keypair_from_seed E H seed).1
      = E.encode (leNum ((clampScalar (H (seed.take 32))).take 32) • E.B) :=
    rfl
  have hkey2 : (ED25519_keypair_from_seed E H seed).2
      = seed.take 32 ++ (E.encode (leNum ((clampScalar
          (H (seed.take 32))).take 32) • E.B)).take 32 := rfl
  have hpub32 : (E.encode (leNum ((clampScalar
      (H (seed.take 32))).take 32) • E.B)).take 32
      = E.encode (leNum ((clampScalar (H (seed.take 32))).take 32) • E.B) :=
    take_of_length_eq (hEnc _)
  have hprivtake : ((ED25519_keypair_from_seed E H seed).2).take 32
      = seed.take 32 := by
    rw [hkey2]
    exact List.take_left' hσ
  have hprivdrop : ((ED25519_keypair_from_seed E H seed).2).drop 32
      = E.encode (leNum ((clampScalar (H (seed.take 32))).take 32) • E.B) := by
    rw [hkey2, List.drop_left' hσ, hpub32]
  have hKdrop : (clampScalar (H (seed.take 32))).drop 32
      = (H (seed.take 32)).drop 32 := by
    unfold clampScalar
    rw [drop_set_of_lt _ 31 32 _ (by omega), drop_set_of_lt _ 0 32 _ (by omega)]
  have hdtake : ((H (seed.take 32)).drop 32).take 32
      = (H (seed.take 32)).drop 32 :=
    take_of_length_eq (by simp [haz64])
  have hnvlt : leNum (H ((H (seed.take 32)).drop 32 ++ message)) % L
      < 256 ^ 32 := lt_trans (Nat.mod_lt _ hLpos) L_lt_two_pow_256
  have hsig : ED25519_sign E H message (ED25519_keypair_from_seed E H seed).2
      = E.encode ((leNum (H ((H (seed.take 32)).drop 32 ++ message)) % L) • E.B)
        ++ leBytes ((leNum (H (E.encode ((leNum (H ((H (seed.take 32)).drop 32
              ++ message)) % L) • E.B)
            ++ E.encode (leNum ((clampScalar (H (seed.take 32))).take 32) • E.B)
            ++ message)) % L
          * leNum ((clampScalar (H (seed.take 32))).take 32)
          + leNum (H ((H (seed.take 32)).drop 32 ++ message)) % L) % L) 32 := by
    simp only [ED25519_sign, ED25519_sign_state]
    rw [hprivtake, hclampeq, hKdrop, hdtake, hprivdrop, hpub32]
    simp only [x25519_sc_reduce, ge_scalarmult_base, sc_muladd,
      take32_leBytes, leNum_leBytes_mod]
    rw [take_of_length_eq (hEnc _)]
  rw [hsig, hkey1]
  exact ed25519_verify_accepts E H hEnc hOrd hDec message
    (leNum ((clampScalar (H (seed.take 32))).take 32))
    (leNum (H ((H (seed.take 32)).drop 32 ++ message)) % L)

instance : NeZero L := ⟨by norm_num [L]⟩

/-- Concrete arithmetic engine over the additive group `ZMod L` (base point
`1`, encoding by little-endian value of the residue), satisfying all the
algebraic laws assumed of the external engine; used to witness the roundtrip
theorem. -/
def zmodEngine : GeEngine (ZMod L) where
  B := 1
  encode := fun P => leBytes P.val 32
  decode := fun b => some ((leNum (b.take 32) : Nat) : ZMod L)

theorem zmodEngine_ord : L • zmodEngine.B = 0 := by
  show L • (1 : ZMod L) = 0
  rw [nsmul_eq_mul, mul_one, ZMod.natCast_self]

theorem zmodEngine_dec (m : Nat) :
    zmodEngine.decode (zmodEngine.encode (m • zmodEngine.B))
      = some (m • zmodEngine.B) := by
  show some ((leNum (((leBytes (m • (1 : ZMod L)).val 32).take 32)) : Nat)
      : ZMod L) = some (m • (1 : ZMod L))
  rw [take32_leBytes, leNum_leBytes _ _
    (lt_trans (ZMod.val_lt _) L_lt_two_pow_256), ZMod.natCast_zmod_val]

theorem ed25519_sign_verify_roundtrip_witness :
    ED25519_verify zmodEngine (fun _ => List.replicate 64 0) []
      (ED25519_sign zmodEngine (fun _ => List.replicate 64 0) []
        (ED25519_keypair_from_seed zmodEngine (fun _ => List.replicate 64 0)
          (List.replicate 32 0)).2)
      (ED25519_keypair_from_seed zmodEngine (fun _ => List.replicate 64 0)
        (List.replicate 32 0)).1 = true :=
  ed25519_sign_verify_roundtrip zmodEngine (fun _ => List.replicate 64 0)
    (fun _ => by simp)
    (fun x b hb => by simp [List.eq_of_mem_replicate hb])
    (fun P => leBytes_length _ _)
    zmodEngine_ord
    zmodEngine_dec
    (List.replicate 32 0) [] (by simp)

end AwsLcCurve25519
